import Mathlib

/-!
Verification development for the csvparser repository: a shallow embedding of
the configuration handling (src/config.rs), the streaming record pipeline
(src/processor.rs), the statistics tracker (src/stats.rs) and the chunked
transfer channel (src/stream.rs), together with theorems settling the frozen
claims about the specification.
-/

deriving instance DecidableEq for Except

namespace Csvparser

/-- Configuration settings for the CSV parser (src/config.rs, struct Config).
Field indices use 1-based indexing; `input = none` means stdin and
`output = none` means stdout. -/
structure Config where
  input : Option String
  output : Option String
  fields : Option (List Nat)
  buffer_size : Nat
  threads : Option Nat
  stats : Bool

/-- Rust `usize::saturating_sub` modelled on `Nat`: truncated subtraction,
which clamps at zero instead of underflowing. -/
def saturatingSub (a b : Nat) : Nat := a - b

/-- Config::should_select_fields (src/config.rs): field selection is enabled
iff a field list is present. -/
def Config.should_select_fields (c : Config) : Bool := c.fields.isSome

/-- Config::field_indices (src/config.rs lines 38-42): the 1-based field
indices converted to 0-based offsets via `f.saturating_sub(1)`, preserving
order and multiplicity. -/
def Config.field_indices (c : Config) : Option (List Nat) :=
  c.fields.map (fun fields => fields.map (fun f => saturatingSub f 1))

/-- Error kinds of the parser (src/error.rs, enum CsvError), with the payload
modelled as the message text. -/
inductive CsvError
  | ioError : String → CsvError
  | csvError : String → CsvError
  | configError : String → CsvError
  | processingError : String → CsvError
  | fieldSelectionError : String → CsvError
  | threadingError : String → CsvError
  deriving DecidableEq

/-- Field projection as performed inside process_streaming (src/processor.rs
lines 96-99 for headers and 112-116 for records): a `filter_map` over the
requested 0-based offsets, where `record.get(i)` drops offsets at or beyond
the record's field count. -/
def selectFields (field_indices : List Nat) (record : List String) : List String :=
  field_indices.filterMap (fun i => record[i]?)

/-- Rust `Vec::join(",")` as used in process_streaming, modelled at the
character level: the field contents interleaved with single commas. -/
def joinFields (fields : List String) : String :=
  String.mk (List.intercalate [','] (fields.map String.data))

/-- Construction of one output line, `format!("{}\n", fields.join(","))`
(src/processor.rs lines 100, 102, 117, 119): comma-joined fields terminated
by a newline, with no quoting or escaping. -/
def serializeLine (fields : List String) : String :=
  joinFields fields ++ "\n"

/-- Parsing of one raw record line by the csv crate reader on simple unquoted
input: the line is split on commas into its fields. -/
def parseRecordLine (line : List Char) : List String :=
  (line.splitOn ',').map (fun f => String.mk f)

/-- Model of the csv crate reader configured in process_streaming
(src/processor.rs lines 85-89: comma-delimited, flexible widths) applied to
simple unquoted input: every non-empty newline-separated line is one record,
split on commas. The crate yields no record for an empty line, and in
flexible mode rows of any width parse without error. -/
def csvRecords (input : String) : List (List String) :=
  ((input.data.splitOn '\n').filter (fun l => !l.isEmpty)).map parseRecordLine

/-- Processing of a single well-formed record by the orchestrator loop
(src/processor.rs lines 110-119): project when field selection is configured,
then serialize. -/
def processRecord (fi : Option (List Nat)) (record : List String) : String :=
  match fi with
  | some idx => serializeLine (selectFields idx record)
  | none => serializeLine record

/-- The record loop of process_streaming (src/processor.rs lines 108-135)
over the sequence of per-record parse results: an Ok record is projected,
serialized and appended to the output and bumps the record count, while an
Err result is skipped (`continue`) and leaves both untouched. Returns the
written output together with the final record count. -/
def processRecords (fi : Option (List Nat)) :
    List (Except String (List String)) → String × Nat
  | [] => ("", 0)
  | Except.ok r :: rest =>
      (processRecord fi r ++ (processRecords fi rest).1, (processRecords fi rest).2 + 1)
  | Except.error _ :: rest => processRecords fi rest

/-- The header line written first by process_streaming (src/processor.rs
lines 95-103): the header projected through the field indices when selection
is configured, otherwise the full header, joined by commas and terminated by
a newline. -/
def headerLine (fi : Option (List Nat)) (headers : List String) : String :=
  match fi with
  | some idx => serializeLine (selectFields idx headers)
  | none => serializeLine headers

/-- CsvProcessor::process_streaming (src/processor.rs lines 77-140) on an
in-memory input: the first parsed record becomes the header (the csv crate's
`headers()` yields an empty record, not an error, when the input holds no
record), the header line is written first, and the remaining records are
processed by the record loop. Returns the full output text with the final
record count. -/
def process_streaming (cfg : Config) (input : String) : Except CsvError (String × Nat) :=
  let recs := csvRecords input
  let headers := recs.headD []
  let body := recs.tail.map (fun r => (Except.ok r : Except String (List String)))
  Except.ok (headerLine cfg.field_indices headers ++ (processRecords cfg.field_indices body).1,
    (processRecords cfg.field_indices body).2)

/-- Reader returned by CsvProcessor::open_input (src/processor.rs lines 48-60):
a named input file is wrapped in BufReader::with_capacity(buffer_size, file),
while the absence of a name yields the process's raw standard input stream
with no buffering layer added by the orchestrator. -/
inductive InputReader
  | bufferedFile : String → Nat → InputReader
  | stdinRaw : InputReader
  deriving DecidableEq

/-- CsvProcessor::open_input (src/processor.rs lines 48-60). -/
def open_input (cfg : Config) : InputReader :=
  match cfg.input with
  | some path => InputReader.bufferedFile path cfg.buffer_size
  | none => InputReader.stdinRaw

/-- Buffer capacity applied by open_input itself: the BufReader capacity on
the file branch, and none on the stdin branch. -/
def InputReader.bufferCapacity : InputReader → Option Nat
  | InputReader.bufferedFile _ c => some c
  | InputReader.stdinRaw => none

/-- Settings of the csv crate ReaderBuilder constructed inside
process_streaming (src/processor.rs lines 85-89): headers on, buffer capacity
equal to the configured buffer size, flexible row widths. These apply to
whichever reader open_input produced. -/
structure ReaderSettings where
  has_headers : Bool
  buffer_capacity : Nat
  flexible : Bool
  deriving DecidableEq

/-- The ReaderBuilder configuration used by process_streaming
(src/processor.rs lines 85-89). -/
def readerSettings (cfg : Config) : ReaderSettings :=
  { has_headers := true, buffer_capacity := cfg.buffer_size, flexible := true }

/-- Modulus of Rust's u64 arithmetic. -/
def u64Mod : Nat := 2 ^ 64

/-- ProcessingStats (src/stats.rs): the two atomic u64 counters, modelled as
naturals below 2^64 (the start_time field plays no part in the counter
claims). -/
structure ProcessingStats where
  records_processed : Nat
  bytes_processed : Nat
  deriving DecidableEq

/-- ProcessingStats::update_records_processed (src/stats.rs lines 23-25):
an absolute atomic store of the given value. -/
def ProcessingStats.update_records_processed (s : ProcessingStats) (count : Nat) :
    ProcessingStats :=
  { s with records_processed := count % u64Mod }

/-- ProcessingStats::add_records_processed (src/stats.rs lines 28-30): an
atomic fetch_add, which wraps modulo 2^64. -/
def ProcessingStats.add_records_processed (s : ProcessingStats) (count : Nat) :
    ProcessingStats :=
  { s with records_processed := (s.records_processed + count) % u64Mod }

/-- ProcessingStats::update_bytes_processed (src/stats.rs lines 33-35):
an absolute atomic store of the given value. -/
def ProcessingStats.update_bytes_processed (s : ProcessingStats) (bytes : Nat) :
    ProcessingStats :=
  { s with bytes_processed := bytes % u64Mod }

/-- ProcessingStats::add_bytes_processed (src/stats.rs lines 38-40): an
atomic fetch_add, which wraps modulo 2^64. -/
def ProcessingStats.add_bytes_processed (s : ProcessingStats) (bytes : Nat) :
    ProcessingStats :=
  { s with bytes_processed := (s.bytes_processed + bytes) % u64Mod }

/-- One call to a mutator of ProcessingStats. -/
inductive StatOp
  | updateRecords : Nat → StatOp
  | addRecords : Nat → StatOp
  | updateBytes : Nat → StatOp
  | addBytes : Nat → StatOp
  deriving DecidableEq

/-- Application of one mutator call to the tracker state. -/
def applyStatOp (s : ProcessingStats) : StatOp → ProcessingStats
  | StatOp.updateRecords n => s.update_records_processed n
  | StatOp.addRecords n => s.add_records_processed n
  | StatOp.updateBytes n => s.update_bytes_processed n
  | StatOp.addBytes n => s.add_bytes_processed n

/-- A sequence of mutator calls applied in order. -/
def runStatOps (s : ProcessingStats) (ops : List StatOp) : ProcessingStats :=
  ops.foldl applyStatOp s

/-- Whether a mutator call is one of the incremental add operations. -/
def StatOp.isAdd : StatOp → Bool
  | StatOp.addRecords _ => true
  | StatOp.addBytes _ => true
  | _ => false

/-- Total amount added to the records counter by a sequence of calls. -/
def recordsAddTotal : List StatOp → Nat
  | [] => 0
  | StatOp.addRecords n :: rest => n + recordsAddTotal rest
  | _ :: rest => recordsAddTotal rest

/-- Total amount added to the bytes counter by a sequence of calls. -/
def bytesAddTotal : List StatOp → Nat
  | [] => 0
  | StatOp.addBytes n :: rest => n + bytesAddTotal rest
  | _ :: rest => bytesAddTotal rest

/-- A raw chunk of bytes handed over the channel (src/stream.rs). -/
abbrev Chunk : Type := List Nat

/-- The consumer loop spawned by StreamingCsvReader::process_chunks
(src/stream.rs lines 29-37): chunks are received in FIFO order from the
mpsc channel; the handler is applied to each in turn, and on the first
handler error the loop returns that error without touching later chunks. -/
def consumerLoop (processor : Chunk → Except CsvError Unit) :
    List Chunk → Except CsvError Unit
  | [] => Except.ok ()
  | c :: rest =>
    match processor c with
    | Except.error e => Except.error e
    | Except.ok _ => consumerLoop processor rest

/-- The chunks to which the consumer actually applies the handler, in the
order delivered: every chunk up to and including the first failing one. -/
def handledChunks (processor : Chunk → Except CsvError Unit) :
    List Chunk → List Chunk
  | [] => []
  | c :: rest =>
    match processor c with
    | Except.error _ => [c]
    | Except.ok _ => c :: handledChunks processor rest

/-- StreamingCsvReader::process_chunks (src/stream.rs lines 22-57) on the
sequence of chunks produced by reading the input: the producer sends the
chunks in read order over a FIFO mpsc channel, the consumer thread applies
the handler to each, and the joined consumer result is the outcome of the
whole call. -/
def process_chunks (chunks : List Chunk) (processor : Chunk → Except CsvError Unit) :
    Except CsvError Unit :=
  consumerLoop processor chunks

/-- The well-formed records among a list of per-record parse results, in
input order. -/
def okRecords : List (Except String (List String)) → List (List String)
  | [] => []
  | Except.ok r :: rest => r :: okRecords rest
  | Except.error _ :: rest => okRecords rest

/-- Concatenation of a list of already-terminated output lines, in order. -/
def concatLines : List String → String
  | [] => ""
  | l :: rest => l ++ concatLines rest

/-- Concrete chunk handler used to exercise the chunked-transfer theorems:
fails on the chunk [0] and succeeds on every other chunk. -/
def failOnZeroChunk : Chunk → Except CsvError Unit :=
  fun c =>
    if c = [0] then Except.error (CsvError.processingError "chunk handler failure")
    else Except.ok ()

/-- C7: converting the configured 1-based field indices to 0-based offsets
decrements each value by exactly one, preserving order and length, and a
value of 1 (the minimum positive integer) clamps to offset 0 via saturating
subtraction rather than underflowing; the results are naturals, hence
non-negative. -/
theorem field_indices_decrements_each (cfg : Config) (fs : List Nat)
    (h : cfg.fields = some fs) :
    Config.field_indices cfg = some (fs.map (fun f => saturatingSub f 1)) ∧
    (fs.map (fun f => saturatingSub f 1)).length = fs.length ∧
    (∀ k f, fs.get? k = some f →
      (fs.map (fun f => saturatingSub f 1)).get? k = some (f - 1)) ∧
    (∀ f ∈ fs, 0 < f → saturatingSub f 1 + 1 = f) ∧
    saturatingSub 1 1 = 0 := by
  refine ⟨by simp [Config.field_indices, h], by simp, ?_, ?_, rfl⟩
  · intro k f hk
    rw [List.get?_map, hk]
    rfl
  · intro f _ hf
    simp only [saturatingSub]
    omega

/-- Witness for C7 at the concrete index list [1, 2, 5]. -/
theorem field_indices_decrements_each_witness :
    Config.field_indices ⟨none, none, some [1, 2, 5], 64, none, false⟩ = some [0, 1, 4] :=
  (field_indices_decrements_each ⟨none, none, some [1, 2, 5], 64, none, false⟩
    [1, 2, 5] rfl).1

/-- C10: the 1-based-to-0-based conversion is total and the out-of-contract
index 0 saturates to offset 0, so a configuration passing field index 0
selects exactly the same offsets as one passing field index 1. -/
theorem field_index_zero_saturates (cfg cfg' : Config) (l : List Nat)
    (h : cfg.fields = some (0 :: l)) (h' : cfg'.fields = some (1 :: l)) :
    Config.field_indices cfg = some (0 :: l.map (fun f => saturatingSub f 1)) ∧
    Config.field_indices cfg = Config.field_indices cfg' := by
  constructor
  · simp [Config.field_indices, h, saturatingSub]
  · simp [Config.field_indices, h, h']
    decide

/-- Witness for C10: field index 0 and field index 1 both select offset 0. -/
theorem field_index_zero_saturates_witness :
    Config.field_indices ⟨none, none, some [0, 2], 64, none, false⟩ = some [0, 1] ∧
    Config.field_indices ⟨none, none, some [0, 2], 64, none, false⟩ =
      Config.field_indices ⟨none, none, some [1, 2], 64, none, false⟩ := by
  have h := field_index_zero_saturates ⟨none, none, some [0, 2], 64, none, false⟩
    ⟨none, none, some [1, 2], 64, none, false⟩ [2] rfl rfl
  exact ⟨h.1, h.2⟩

/-- C5 counterexample: with no input path configured, open_input returns the
raw standard input stream with no buffer capacity applied by the
orchestrator, refuting the claim that the stdin path is buffered with the
configured buffer size exactly as the named-file path is. -/
theorem open_input_stdin_unbuffered :
    open_input ⟨none, none, none, 65536, none, false⟩ = InputReader.stdinRaw ∧
    InputReader.bufferCapacity (open_input ⟨none, none, none, 65536, none, false⟩) ≠
      some 65536 := by
  decide

/-- C5 (amended): with no input path configured the orchestrator reads from
the raw standard input stream, to which open_input itself applies no buffer;
the configured buffer size reaches the stdin path only through the CSV
reader's buffer capacity set inside process_streaming, while a named file is
additionally wrapped in a buffered reader with the configured capacity. -/
theorem open_input_stdin_raw (cfg : Config) (h : cfg.input = none) :
    open_input cfg = InputReader.stdinRaw ∧
    (open_input cfg).bufferCapacity = none ∧
    (readerSettings cfg).buffer_capacity = cfg.buffer_size ∧
    (∀ path cfg', cfg'.input = some path →
      open_input cfg' = InputReader.bufferedFile path cfg'.buffer_size) := by
  refine ⟨?_, ?_, rfl, ?_⟩
  · simp [open_input, h]
  · simp [open_input, h, InputReader.bufferCapacity]
  · intro path cfg' h'
    simp [open_input, h']

/-- Witness for C5's amended theorem at a concrete stdin configuration. -/
theorem open_input_stdin_raw_witness :
    open_input ⟨none, none, none, 65536, none, false⟩ = InputReader.stdinRaw ∧
    (readerSettings ⟨none, none, none, 65536, none, false⟩).buffer_capacity = 65536 := by
  have h := open_input_stdin_raw ⟨none, none, none, 65536, none, false⟩ rfl
  exact ⟨h.1, h.2.2.1⟩

/-- Splitting the records-add total over an append of call sequences. -/
theorem recordsAddTotal_append (a b : List StatOp) :
    recordsAddTotal (a ++ b) = recordsAddTotal a + recordsAddTotal b := by
  induction a with
  | nil => simp [recordsAddTotal]
  | cons op rest ih => cases op <;> simp [recordsAddTotal, ih] <;> omega

/-- Splitting the bytes-add total over an append of call sequences. -/
theorem bytesAddTotal_append (a b : List StatOp) :
    bytesAddTotal (a ++ b) = bytesAddTotal a + bytesAddTotal b := by
  induction a with
  | nil => simp [bytesAddTotal]
  | cons op rest ih => cases op <;> simp [bytesAddTotal, ih] <;> omega

/-- A sequence consisting only of add mutators whose totals stay below 2^64
moves the tracker to exactly the componentwise sums (no wraparound occurs). -/
theorem runStatOps_adds_eq (ops : List StatOp) (s : ProcessingStats)
    (hadd : ∀ op ∈ ops, op.isAdd = true)
    (hr : s.records_processed + recordsAddTotal ops < u64Mod)
    (hb : s.bytes_processed + bytesAddTotal ops < u64Mod) :
    runStatOps s ops =
      ⟨s.records_processed + recordsAddTotal ops,
        s.bytes_processed + bytesAddTotal ops⟩ := by
  induction ops generalizing s with
  | nil =>
    cases s
    simp [runStatOps, recordsAddTotal, bytesAddTotal]
  | cons op rest ih =>
    cases op with
    | updateRecords n => exact absurd (hadd _ (List.mem_cons_self _ _)) (by simp [StatOp.isAdd])
    | updateBytes n => exact absurd (hadd _ (List.mem_cons_self _ _)) (by simp [StatOp.isAdd])
    | addRecords n =>
      have hstep : applyStatOp s (StatOp.addRecords n) =
          ⟨s.records_processed + n, s.bytes_processed⟩ := by
        simp only [applyStatOp, ProcessingStats.add_records_processed]
        congr 1
        apply Nat.mod_eq_of_lt
        simp only [recordsAddTotal] at hr
        omega
      have h1 : runStatOps s (StatOp.addRecords n :: rest) =
          runStatOps ⟨s.records_processed + n, s.bytes_processed⟩ rest := by
        simp [runStatOps, hstep]
      rw [h1, ih _ (fun op hop => hadd op (List.mem_cons_of_mem _ hop))]
      · simp only [recordsAddTotal, bytesAddTotal]
        congr 1
        omega
      · simp only [recordsAddTotal] at hr
        simpa [Nat.add_assoc] using hr
      · simpa [bytesAddTotal] using hb
    | addBytes n =>
      have hstep : applyStatOp s (StatOp.addBytes n) =
          ⟨s.records_processed, s.bytes_processed + n⟩ := by
        simp only [applyStatOp, ProcessingStats.add_bytes_processed]
        congr 1
        apply Nat.mod_eq_of_lt
        simp only [bytesAddTotal] at hb
        omega
      have h1 : runStatOps s (StatOp.addBytes n :: rest) =
          runStatOps ⟨s.records_processed, s.bytes_processed + n⟩ rest := by
        simp [runStatOps, hstep]
      rw [h1, ih _ (fun op hop => hadd op (List.mem_cons_of_mem _ hop))]
      · simp only [recordsAddTotal, bytesAddTotal]
        congr 1
        omega
      · simpa [recordsAddTotal] using hr
      · simp only [bytesAddTotal] at hb
        simpa [Nat.add_assoc] using hb

/-- C8 counterexample: a sequence of two absolute-set mutator calls under
which the value read through the records counter decreases from 5 to 3,
refuting monotonicity over arbitrary mutator sequences. -/
theorem stats_set_can_decrease :
    (runStatOps ⟨0, 0⟩ [StatOp.updateRecords 5]).records_processed = 5 ∧
    (runStatOps ⟨0, 0⟩
      [StatOp.updateRecords 5, StatOp.updateRecords 3]).records_processed = 3 ∧
    ¬ (5 : Nat) ≤ 3 := by
  refine ⟨?_, ?_, by omega⟩ <;>
    simp [runStatOps, applyStatOp, ProcessingStats.update_records_processed, u64Mod]

/-- C8 (amended): the counters are monotonic under the incremental add
mutators: for every sequence of add calls whose running totals stay within
u64 range, the values observable through the records and bytes readers after
any prefix of the calls never exceed the values observable after the whole
sequence (so they never decrease from one call to the next); an absolute-set
mutator called with a smaller value than the current one, by contrast,
decreases the counter. -/
theorem stats_adds_monotonic (s : ProcessingStats) (ops₁ ops₂ : List StatOp)
    (hadd : ∀ op ∈ ops₁ ++ ops₂, op.isAdd = true)
    (hr : s.records_processed + recordsAddTotal (ops₁ ++ ops₂) < u64Mod)
    (hb : s.bytes_processed + bytesAddTotal (ops₁ ++ ops₂) < u64Mod) :
    (runStatOps s ops₁).records_processed ≤
      (runStatOps s (ops₁ ++ ops₂)).records_processed ∧
    (runStatOps s ops₁).bytes_processed ≤
      (runStatOps s (ops₁ ++ ops₂)).bytes_processed := by
  have hadd₁ : ∀ op ∈ ops₁, op.isAdd = true := fun op hop =>
    hadd op (List.mem_append_left _ hop)
  have hra := recordsAddTotal_append ops₁ ops₂
  have hba := bytesAddTotal_append ops₁ ops₂
  have h₁ := runStatOps_adds_eq ops₁ s hadd₁ (by omega) (by omega)
  have h₂ := runStatOps_adds_eq (ops₁ ++ ops₂) s hadd hr hb
  rw [h₁, h₂]
  constructor <;> simp <;> omega

/-- Witness for C8's amended theorem on a concrete add-only sequence. -/
theorem stats_adds_monotonic_witness :
    (runStatOps ⟨0, 0⟩ [StatOp.addRecords 2]).records_processed ≤
      (runStatOps ⟨0, 0⟩
        [StatOp.addRecords 2, StatOp.addBytes 3, StatOp.addRecords 1]).records_processed ∧
    (runStatOps ⟨0, 0⟩ [StatOp.addRecords 2]).bytes_processed ≤
      (runStatOps ⟨0, 0⟩
        [StatOp.addRecords 2, StatOp.addBytes 3, StatOp.addRecords 1]).bytes_processed := by
  have h := stats_adds_monotonic ⟨0, 0⟩ [StatOp.addRecords 2]
    [StatOp.addBytes 3, StatOp.addRecords 1] (by decide) (by decide) (by decide)
  exact h

/-- C9: in chunked-transfer mode the handler sees the chunks in exactly the
order they were read: the handled chunks always form a prefix of the read
sequence; when every chunk succeeds the handler is applied to all of them
and process_chunks succeeds; and when the handler first fails on some chunk,
process_chunks returns that error as the run's outcome and no later chunk is
handled. -/
theorem process_chunks_fifo_and_stops (chunks : List Chunk)
    (processor : Chunk → Except CsvError Unit)
    (pre post : List Chunk) (c : Chunk) (e : CsvError) :
    handledChunks processor chunks <+: chunks ∧
    ((∀ d ∈ chunks, processor d = Except.ok ()) →
      handledChunks processor chunks = chunks ∧
      process_chunks chunks processor = Except.ok ()) ∧
    ((∀ d ∈ pre, processor d = Except.ok ()) → processor c = Except.error e →
      process_chunks (pre ++ c :: post) processor = Except.error e ∧
      handledChunks processor (pre ++ c :: post) = pre ++ [c]) := by
  refine ⟨?_, ?_, ?_⟩
  · induction chunks with
    | nil => exact ⟨[], rfl⟩
    | cons d rest ih =>
      cases hd : processor d with
      | error err => exact ⟨rest, by simp [handledChunks, hd]⟩
      | ok u =>
        obtain ⟨t, ht⟩ := ih
        exact ⟨t, by simp [handledChunks, hd, ht]⟩
  · intro hok
    induction chunks with
    | nil => exact ⟨rfl, rfl⟩
    | cons d rest ih =>
      have hd := hok d (List.mem_cons_self _ _)
      have ihr := ih (fun x hx => hok x (List.mem_cons_of_mem _ hx))
      refine ⟨?_, ?_⟩
      · simp [handledChunks, hd, ihr.1]
      · simpa [process_chunks, consumerLoop, hd] using ihr.2
  · intro hpre hc
    induction pre with
    | nil =>
      constructor
      · simp [process_chunks, consumerLoop, hc]
      · simp [handledChunks, hc]
    | cons d pre' ih =>
      have hd := hpre d (List.mem_cons_self _ _)
      have ihr := ih (fun x hx => hpre x (List.mem_cons_of_mem _ hx))
      constructor
      · simpa [process_chunks, consumerLoop, hd] using ihr.1
      · simp [handledChunks, hd, ihr.2]

/-- Witness for C9: a run whose second chunk fails stops after that chunk
and reports the handler's error. -/
theorem process_chunks_fifo_and_stops_witness :
    process_chunks [[1], [0], [2]] failOnZeroChunk =
      Except.error (CsvError.processingError "chunk handler failure") ∧
    handledChunks failOnZeroChunk [[1], [0], [2]] = [[1], [0]] := by
  have h := (process_chunks_fifo_and_stops [[1], [0], [2]] failOnZeroChunk
    [[1]] [[2]] [0] (CsvError.processingError "chunk handler failure")).2.2
    (by decide) (by decide)
  exact h

/-- C1: the orchestrator's record loop never terminates on a malformed row:
removing an error result from anywhere in the parse-result sequence leaves
the processed output and count unchanged, every well-formed record is
projected, serialized and written in order, and the final record count
equals exactly the number of well-formed records (malformed rows are not
counted). -/
theorem record_loop_skips_malformed (fi : Option (List Nat))
    (results : List (Except String (List String))) :
    (processRecords fi results).2 = (okRecords results).length ∧
    (processRecords fi results).1 =
      concatLines ((okRecords results).map (processRecord fi)) ∧
    ∀ pre post (e : String),
      processRecords fi (pre ++ Except.error e :: post) =
        processRecords fi (pre ++ post) := by
  refine ⟨?_, ?_, ?_⟩
  · induction results with
    | nil => rfl
    | cons r rest ih => cases r <;> simp [processRecords, okRecords, ih]
  · induction results with
    | nil => rfl
    | cons r rest ih => cases r <;> simp [processRecords, okRecords, concatLines, ih]
  · intro pre post e
    induction pre with
    | nil => simp [processRecords]
    | cons r pre' ih => cases r <;> simp [processRecords, ih]

/-- C2: projection returns the fields at the in-range offsets in exactly the
requested offset order (a repeated offset yielding a repeated value, since
the result is the pointwise image of the offset list); an offset at or
beyond the record's field count contributes no value, so the projected row
shrinks rather than being padded; and when every requested offset is
in range the result has exactly as many values as there are offsets. -/
theorem selectFields_projection (idx idx₁ idx₂ : List Nat) (record : List String)
    (i : Nat) :
    (record.length ≤ i →
      selectFields (idx₁ ++ i :: idx₂) record = selectFields (idx₁ ++ idx₂) record) ∧
    ((∀ j ∈ idx, j < record.length) →
      selectFields idx record = idx.map (fun j => record.getD j "") ∧
      (selectFields idx record).length = idx.length) := by
  constructor
  · intro hi
    have hnone : record[i]? = none := List.getElem?_eq_none hi
    simp [selectFields, List.filterMap_append, List.filterMap_cons, hnone]
  · intro hj
    have hmap : selectFields idx record = idx.map (fun j => record.getD j "") := by
      induction idx with
      | nil => rfl
      | cons j rest ih =>
        have hlt := hj j (List.mem_cons_self _ _)
        cases hq : record[j]? with
        | none => exact absurd (List.getElem?_eq_none_iff.mp hq) (Nat.not_le.mpr hlt)
        | some a =>
          have hd : record.getD j "" = a := by
            simp [List.getD_eq_getElem?_getD, hq]
          have ihr := ih (fun x hx => hj x (List.mem_cons_of_mem _ hx))
          calc selectFields (j :: rest) record
              = a :: selectFields rest record := by
                simp only [selectFields, List.filterMap_cons, hq]
            _ = a :: rest.map (fun j => record.getD j "") := by rw [ihr]
            _ = (j :: rest).map (fun j => record.getD j "") := by
                rw [List.map_cons, hd]
    exact ⟨hmap, by rw [hmap, List.length_map]⟩

/-- Witness for C2 on a 3-field record: offsets [2, 0, 2] project in order
with repetition, and an out-of-range offset 5 is dropped. -/
theorem selectFields_projection_witness :
    (selectFields ([2, 0] ++ 5 :: [2]) ["a", "b", "c"] =
      selectFields ([2, 0] ++ [2]) ["a", "b", "c"]) ∧
    (selectFields [2, 0, 2] ["a", "b", "c"] =
        [2, 0, 2].map (fun j => ["a", "b", "c"].getD j "") ∧
      (selectFields [2, 0, 2] ["a", "b", "c"]).length = ([2, 0, 2] : List Nat).length) := by
  have h1 := (selectFields_projection [2, 0, 2] [2, 0] [2] ["a", "b", "c"] 5).1
    (by decide)
  have h2 := (selectFields_projection [2, 0, 2] [2, 0] [2] ["a", "b", "c"] 5).2
    (by decide)
  exact ⟨h1, h2⟩

/-- C3 counterexample: on the empty input stream the run does not fail — it
returns success with output consisting of one empty header line, so output
is produced, refuting both the fatal-error and the no-output part of the
claim. -/
theorem empty_input_run_succeeds :
    process_streaming ⟨none, none, none, 65536, none, false⟩ "" = Except.ok ("\n", 0) ∧
    ("\n" : String) ≠ "" := by
  decide

/-- Projecting the empty record yields no fields. -/
theorem selectFields_nil (idx : List Nat) : selectFields idx ([] : List String) = [] := by
  simp [selectFields]

/-- The header line written for an empty header row is a lone newline,
whether or not field selection is configured. -/
theorem headerLine_empty (fi : Option (List Nat)) : headerLine fi [] = "\n" := by
  cases fi with
  | none => rfl
  | some idx =>
    show serializeLine (selectFields idx []) = "\n"
    rw [selectFields_nil]
    rfl

/-- C3 (amended): on the empty input stream the csv crate's header read
yields an empty header row without error, so process_streaming succeeds,
writes exactly one empty header line (a lone newline) to the output, and
processes zero records — the run does not abort and does produce output. -/
theorem empty_input_writes_empty_header (cfg : Config) :
    process_streaming cfg "" = Except.ok ("\n", 0) := by
  have h : process_streaming cfg "" =
      Except.ok (headerLine cfg.field_indices [] ++ "", 0) := rfl
  rw [h, headerLine_empty]
  rfl

/-- The record loop applied to an all-well-formed record sequence counts
every record. -/
theorem processRecords_all_ok_count (fi : Option (List Nat)) (t : List (List String)) :
    (processRecords fi (t.map (fun r => (Except.ok r : Except String (List String))))).2 =
      t.length := by
  induction t with
  | nil => rfl
  | cons r rest ih => simp [processRecords, ih]

/-- C4: for every configuration and every input whose first parsed line is
the header, the output starts with the header line — the header projected
through the projection spec when field selection is configured, otherwise
the full header joined by commas — followed by the processed records, whose
count is the number of remaining lines; concretely, input
"a,b,c\n1,2,3\n4,5,6\n" with fields [1, 3] produces "a,c\n1,3\n4,6\n". -/
theorem header_line_written_first (cfg : Config) (input : String) (h : List String)
    (t : List (List String)) (hrec : csvRecords input = h :: t) :
    (∃ rest, process_streaming cfg input =
      Except.ok (headerLine cfg.field_indices h ++ rest, t.length)) ∧
    (cfg.fields = none → headerLine cfg.field_indices h = serializeLine h) ∧
    (∀ fs, cfg.fields = some fs →
      headerLine cfg.field_indices h =
        serializeLine (selectFields (fs.map (fun f => saturatingSub f 1)) h)) ∧
    process_streaming ⟨none, none, some [1, 3], 65536, none, false⟩
        "a,b,c\n1,2,3\n4,5,6\n" =
      Except.ok ("a,c\n1,3\n4,6\n", 2) := by
  refine ⟨?_, ?_, ?_, by decide⟩
  · refine ⟨(processRecords cfg.field_indices
      (t.map (fun r => (Except.ok r : Except String (List String))))).1, ?_⟩
    simp only [process_streaming, hrec, List.headD, List.tail_cons]
    rw [processRecords_all_ok_count]
  · intro hf
    simp [headerLine, Config.field_indices, hf]
  · intro fs hf
    simp [headerLine, Config.field_indices, hf]

/-- Witness for C4 at the concrete scenario from the specification. -/
theorem header_line_written_first_witness :
    ∃ rest, process_streaming ⟨none, none, some [1, 3], 65536, none, false⟩
        "a,b,c\n1,2,3\n4,5,6\n" =
      Except.ok (headerLine
        (Config.field_indices ⟨none, none, some [1, 3], 65536, none, false⟩)
        ["a", "b", "c"] ++ rest, 2) :=
  (header_line_written_first ⟨none, none, some [1, 3], 65536, none, false⟩
    "a,b,c\n1,2,3\n4,5,6\n" ["a", "b", "c"] [["1", "2", "3"], ["4", "5", "6"]]
    (by decide)).1

/-- C6: round-trip — for every well-formed input line (non-empty, no
embedded newline; its parsed fields then contain no commas by construction),
serializing the exact field sequence parsed from the line and parsing the
serialized line again yields that field sequence as the only record. -/
theorem serialize_reparse_roundtrip (line : List Char) (hne : line ≠ [])
    (hnl : Char.ofNat 10 ∉ line) :
    csvRecords (serializeLine (parseRecordLine line)) = [parseRecordLine line] := by
  have hjoin : joinFields (parseRecordLine line) = String.mk line := by
    simp only [joinFields, parseRecordLine, List.map_map]
    have hid : (String.data ∘ fun f => String.mk f) = id := rfl
    rw [hid, List.map_id, List.intercalate_splitOn]
  have hser : serializeLine (parseRecordLine line) = String.mk (line ++ ['\n']) := by
    rw [serializeLine, hjoin]
    rfl
  have hsplit : (line ++ ['\n']).splitOn '\n' = [line, []] := by
    have h1 := List.splitOnP_first (fun x => x == '\n') line
      (fun x hx => by
        simp only [beq_iff_eq]
        exact fun hEq => hnl (hEq ▸ hx)) '\n' (by simp) []
    simpa [List.splitOn] using h1
  rw [hser]
  simp only [csvRecords, hsplit]
  cases line with
  | nil => exact absurd rfl hne
  | cons c cs => simp [List.filter]

/-- Witness for C6 on the concrete line "a,b". -/
theorem serialize_reparse_roundtrip_witness :
    csvRecords (serializeLine (parseRecordLine ['a', ',', 'b'])) =
      [parseRecordLine ['a', ',', 'b']] :=
  serialize_reparse_roundtrip ['a', ',', 'b'] (by decide) (by decide)

end Csvparser
